import Mathlib

/-!
Verification development for the novel-downloader core (src/noveldownloader.js).

Strings from the JavaScript source are modelled as `List Char`; the regex-based
replacement passes of `cleanText` are modelled by an explicit leftmost,
non-overlapping scan (`replaceMatches`) driven by per-position matchers that
mirror each regular expression of the source.  Fuel equals the input length, so
every definition is executable and kernel-reducible.
-/

/-- Whitespace test mirroring the JavaScript `\s` class (restricted to the
ASCII whitespace characters, which are the only ones the program produces). -/
def isWS (c : Char) : Bool :=
  c == ' ' || c == '\t' || c == '\n' || c == '\r' || c == '\x0b' || c == '\x0c'

/-- Leading run of characters satisfying `p`, as a length. -/
def countWhile (p : Char → Bool) (s : List Char) : Nat :=
  (s.takeWhile p).length

/-- Model of JavaScript `String.prototype.split('\n')`: cut a character list at
every newline.  `splitLines [] = [[]]` just as `''.split('\n')` is `['']`. -/
def splitLines : List Char → List (List Char)
  | [] => [[]]
  | c :: cs =>
    if c = '\n' then [] :: splitLines cs
    else
      match splitLines cs with
      | [] => [[c]]
      | l :: ls => (c :: l) :: ls

/-- Model of JavaScript `Array.prototype.join('\n')`. -/
def joinNl : List (List Char) → List Char
  | [] => []
  | [l] => l
  | l :: ls => l ++ '\n' :: joinNl ls

/-- Model of JavaScript `Array.prototype.join('\n\n')`, used by `cleanText`. -/
def joinNl2 : List (List Char) → List Char
  | [] => []
  | [l] => l
  | l :: ls => l ++ '\n' :: '\n' :: joinNl2 ls

/-- Model of JavaScript `String.prototype.trim()`: strip leading and trailing
whitespace. -/
def trimChars (s : List Char) : List Char :=
  ((s.dropWhile isWS).reverse.dropWhile isWS).reverse

/-- Characters of `s` up to (excluding) the first occurrence of the substring
`pat`; the whole of `s` when `pat` does not occur.  This models
`s.split(pat)[0]` for a non-empty literal separator. -/
def takeUntilSub (pat : List Char) : List Char → List Char
  | [] => []
  | c :: cs => if pat.isPrefixOf (c :: cs) then [] else c :: takeUntilSub pat cs

/-- Fuel-driven worker for `replaceMatches`.  The matcher `m` reports, for the
suffix starting at the current position, the length of a regex match starting
exactly there (`none` if the regex does not match at this position).  Matches
are replaced by `repl`; on a match of length `k + 1` the scan resumes after the
matched characters, exactly like a global JavaScript regex replace. -/
def replaceMatchesGo (m : List Char → Option Nat) (repl : List Char) :
    Nat → List Char → List Char
  | _, [] => []
  | 0, s => s
  | fuel + 1, c :: cs =>
    match m (c :: cs) with
    | some (k + 1) => repl ++ replaceMatchesGo m repl fuel (cs.drop k)
    | _ => c :: replaceMatchesGo m repl fuel cs

/-- Leftmost, non-overlapping global replacement, the semantics of
`String.prototype.replace` with a `g`-flagged regex. -/
def replaceMatches (m : List Char → Option Nat) (repl : List Char)
    (s : List Char) : List Char :=
  replaceMatchesGo m repl s.length s

/-- Matcher for a non-empty literal pattern. -/
def litMatch (pat : List Char) (s : List Char) : Option Nat :=
  if pat ≠ [] ∧ pat.isPrefixOf s then some pat.length else none

/-- Global replacement of a literal substring, the semantics the source gets
from `new RegExp(entity, "g")` on metacharacter-free entity strings and from
its fixed-string regexes. -/
def replaceSub (pat repl s : List Char) : List Char :=
  replaceMatches (litMatch pat) repl s

/-- Matcher for the source regex `<br\s*[/]?>` (case sensitive, as in the
source). -/
def brMatch (s : List Char) : Option Nat :=
  if ("<br".data).isPrefixOf s then
    let rest := s.drop 3
    let n := countWhile isWS rest
    match rest.drop n with
    | '>' :: _ => some (3 + n + 1)
    | '/' :: '>' :: _ => some (3 + n + 2)
    | _ => none
  else none

/-- Matcher for the source regex `<img[^>]*>` with the `i` flag: the literal
`<img` is compared case-insensitively. -/
def imgMatch (s : List Char) : Option Nat :=
  if (s.take 4).map Char.toLower = "<img".data then
    let k := countWhile (fun c => !(c == '>')) (s.drop 4)
    match (s.drop 4).drop k with
    | '>' :: _ => some (4 + k + 1)
    | _ => none
  else none

/-- Matcher for the source regex `<[^>]*>` (any remaining markup tag). -/
def tagMatch (s : List Char) : Option Nat :=
  match s with
  | '<' :: rest =>
    let k := countWhile (fun c => !(c == '>')) rest
    match rest.drop k with
    | '>' :: _ => some (1 + k + 1)
    | _ => none
  | _ => none

/-- Matcher for the source regex ` {2,}` (two or more literal spaces). -/
def spaceMatch (s : List Char) : Option Nat :=
  let n := countWhile (fun c => c == ' ') s
  if 2 ≤ n then some n else none

/-- Matcher for the source regex `\n{3,}` (three or more newlines). -/
def nl3Match (s : List Char) : Option Nat :=
  let n := countWhile (fun c => c == '\n') s
  if 3 ≤ n then some n else none

/-- Entity table of `unescapeHTML`, in the source's insertion order. -/
def entityTable : List (List Char × List Char) :=
  [ ("&lt;".data, "<".data)
  , ("&gt;".data, ">".data)
  , ("&amp;".data, "&".data)
  , ("&quot;".data, "\"".data)
  , ("&apos;".data, "'".data)
  , ("&nbsp;".data, " ".data)
  , ("&ndash;".data, "-".data)
  , ("&mdash;".data, "--".data)
  , ("&lsquo;".data, "'".data)
  , ("&rsquo;".data, "'".data)
  , ("&ldquo;".data, "\"".data)
  , ("&rdquo;".data, "\"".data) ]

/-- Model of the source's `unescapeHTML`: sequential global literal
replacement of each entity, in table order. -/
def unescapeHTML (text : List Char) : List Char :=
  entityTable.foldl (fun acc e => replaceSub e.1 e.2 acc) text

/-- Model of the source's `cleanText`, pass for pass and in the same order. -/
def cleanText (text : List Char) : List Char :=
  let c1 := replaceSub ("<div>".data) [] text
  let c2 := replaceSub ("</div>".data) [] c1
  let c3 := replaceSub ("<p>".data) ['\n'] c2
  let c4 := replaceSub ("</p>".data) ['\n'] c3
  let c5 := replaceMatches brMatch ['\n'] c4
  let c6 := replaceMatches imgMatch ("[Image Skipped]".data) c5
  let c7 := replaceMatches tagMatch [] c6
  let c8 := replaceMatches spaceMatch [' '] c7
  let c9 := unescapeHTML c8
  let pieces := ((splitLines c9).map trimChars).filter (fun l => 0 < l.length)
  replaceMatches nl3Match ('\n' :: '\n' :: []) (joinNl2 pieces)

/-- Model of the source's `sanitizeFilename`: every character of the class
`[/\\?%*:|"<>]` becomes an underscore. -/
def sanitizeFilename (name : List Char) : List Char :=
  name.map (fun c =>
    if c == '/' || c == '\\' || c == '?' || c == '%' || c == '*' || c == ':' ||
        c == '|' || c == '"' || c == '<' || c == '>' then '_' else c)

/-!
Fetch and extraction model.  The browser collaborators (`fetch`, `DOMParser`,
`querySelector`) are external to the repository; they are modelled as explicit
inputs: a fetch either throws with a message or yields a status code together
with a body, and a parsed document is a finite selector-to-element table
(`querySelector` is lookup in that table).  A body is `Except`: `.error msg`
models `response.text()` throwing (caught by the source's try/catch), `.ok doc`
a parsed document — `DOMParser.parseFromString` itself never throws.
-/

/-- A DOM element, restricted to the three observations the source makes:
`getAttribute("title")` (`none` models a missing attribute), `textContent`,
and `innerHTML`. -/
structure Element where
  titleAttr : Option (List Char)
  textContent : List Char
  innerHTML : List Char
deriving DecidableEq

/-- A parsed document: a finite association of selectors to elements. -/
def Doc := List (List Char × Element)

/-- Model of `doc.querySelector(sel)`. -/
def querySelector (doc : Doc) (sel : List Char) : Option Element :=
  (doc.find? (fun p => p.1 == sel)).map (fun p => p.2)

/-- The ordered title selector candidates of `fetchNovelContent`. -/
def titleSelectors : List (List Char) :=
  [".toon-title".data, ".view-title".data, "h1.title".data,
   ".post-title".data, ".entry-title".data]

/-- The ordered content selector candidates of `fetchNovelContent`. -/
def contentSelectors : List (List Char) :=
  ["#novel_content".data, ".novel-content".data, ".view-content".data,
   ".entry-content".data, ".post-content".data]

/-- First selector hit, mirroring the source's `for` loop that stops at the
first selector for which `querySelector` returns an element. -/
def firstMatch (doc : Doc) : List (List Char) → Option Element
  | [] => none
  | sel :: rest =>
    match querySelector doc sel with
    | some e => some e
    | none => firstMatch doc rest

/-- Title extraction from the matched element, mirroring
`titleElement.getAttribute("title") || titleElement.textContent.split("<br>")[0].trim() || "Untitled Episode"`.
A missing attribute (`null`) and an empty attribute string are both falsy in
JavaScript, so both fall through to the text branch. -/
def resolveEpisodeTitle : Option Element → List Char
  | none => "Untitled Episode".data
  | some e =>
    let attr := match e.titleAttr with | some s => s | none => []
    if attr ≠ [] then attr
    else
      let txt := trimChars (takeUntilSub ("<br>".data) e.textContent)
      if txt ≠ [] then txt else "Untitled Episode".data

/-- The episode title `fetchNovelContent` computes for a document. -/
def episodeTitleOf (doc : Doc) : List Char :=
  resolveEpisodeTitle (firstMatch doc titleSelectors)

/-- Input to one `fetchNovelContent` call: either the transport throws, or a
response arrives with a status code and a body. -/
inductive FetchInput
  | fetchExn (msg : List Char)
  | resp (status : Nat) (body : Except (List Char) Doc)

/-- The five tagged outcomes `fetchNovelContent` can return; the failure
variants carry the url (and code or message) exactly as the source objects do,
and none of them carries a content string. -/
inductive FetchResult
  | success (episodeTitle content : List Char)
  | captcha (url : List Char)
  | networkError (url : List Char) (statusCode : Nat)
  | noContentFound (url : List Char)
  | fetchError (url : List Char) (message : List Char)
deriving DecidableEq

/-- Model of `fetchNovelContent`: 403 first, then any other non-2xx status,
then content lookup, then title stripping, with the catch-all mapping any
thrown message to `fetchError`. -/
def fetchNovelContent (url : List Char) (input : FetchInput) : FetchResult :=
  match input with
  | .fetchExn msg => .fetchError url msg
  | .resp status body =>
    if status = 403 then .captcha url
    else if ¬ (200 ≤ status ∧ status ≤ 299) then .networkError url status
    else
      match body with
      | .error msg => .fetchError url msg
      | .ok doc =>
        match firstMatch doc contentSelectors with
        | none => .noContentFound url
        | some contentEl =>
          let episodeTitle := episodeTitleOf doc
          let cleaned := cleanText contentEl.innerHTML
          let cleaned2 :=
            if episodeTitle.isPrefixOf cleaned then
              trimChars (cleaned.drop episodeTitle.length)
            else cleaned
          .success episodeTitle cleaned2

/-!
Report codec.  `buildReportContent` is the report string assembled at the end
of `processDownloadCore`; `parseReportFile` models the retry parser, whose
per-line regex `URL: (https?:\/\/[^\s]+)` is modelled by an explicit
leftmost-position scan (`findURL`) with the same alternation and greediness.
-/

/-- One `(url, reason)` record of the skipped or incomplete lists. -/
structure ReportEntry where
  url : List Char
  reason : List Char
deriving DecidableEq

/-- One report line, `URL: <url> (Reason: <reason>)`. -/
def reportLine (e : ReportEntry) : List Char :=
  "URL: ".data ++ e.url ++ " (Reason: ".data ++ e.reason ++ ")".data

/-- One report section: the joined entry lines, or the fixed sentinel when the
section is empty, each followed by a newline — exactly the string the source
appends for a section. -/
def sectionText (es : List ReportEntry) (sentinel : List Char) : List Char :=
  if 0 < es.length then joinNl (es.map reportLine) ++ '\n' :: []
  else sentinel ++ '\n' :: []

/-- The full report text assembled in `processDownloadCore` (lines 909–921 of
the source). -/
def buildReportContent (skipped incomplete : List ReportEntry) : List Char :=
  "--- Skipped Chapters (CAPTCHA / 403) ---\n".data
  ++ sectionText skipped ("No chapters skipped due to CAPTCHA.".data)
  ++ "\n--- Incomplete/Failed Chapters ---\n".data
  ++ sectionText incomplete ("No chapters incomplete or failed.".data)

/-- Maximal leading run of non-whitespace characters, the `[^\s]+` capture
tail. -/
def takeNonWS : List Char → List Char
  | [] => []
  | c :: cs => if isWS c then [] else c :: takeNonWS cs

/-- Attempt to match `URL: (https?:\/\/[^\s]+)` at the start of `s`, returning
the capture.  `https?` tries the `s` first exactly like the regex engine; the
two prefixes are mutually exclusive, and the capture needs at least one
non-whitespace character after the scheme. -/
def tryMatch (s : List Char) : Option (List Char) :=
  if ("URL: https://".data).isPrefixOf s then
    let cap := takeNonWS (s.drop 13)
    if cap = [] then none else some ("https://".data ++ cap)
  else if ("URL: http://".data).isPrefixOf s then
    let cap := takeNonWS (s.drop 12)
    if cap = [] then none else some ("http://".data ++ cap)
  else none

/-- Leftmost match of the url regex in a line: `line.match(...)` returns the
first position at which the whole pattern matches. -/
def findURL : List Char → Option (List Char)
  | [] => none
  | c :: cs =>
    match tryMatch (c :: cs) with
    | some u => some u
    | none => findURL cs

/-- Model of the source's `parseReportFile`: split on newlines, extract the
first regex match of each line, keep the captures in file order. -/
def parseReportFile (fileContent : List Char) : List (List Char) :=
  (splitLines fileContent).filterMap findURL

/-- Well-formedness of a stored url: it starts with `http://` or `https://`,
has at least one character after the scheme, and contains no whitespace. -/
def goodUrl (url : List Char) : Bool :=
  ((("http://".data).isPrefixOf url && decide (7 < url.length)) ||
    (("https://".data).isPrefixOf url && decide (8 < url.length))) &&
  url.all (fun c => !(isWS c))

/-!
Download orchestrator.  The loop of `processDownloadCore` is modelled over an
ordered list of `(url, fetch input)` pairs; the per-item result is computed by
`fetchNovelContent`, exactly as in the source.  `cf i` is the value of the
`isDownloadCancelled` flag observed by the check at the top of iteration `i`
(the flag is written asynchronously by the close button and read only at those
checks, plus once after the loop).  The inter-item delay and the UI updates
have no effect on the job state and are not modelled.
-/

/-- Mutable state of one job's loop: the three accumulators, the merged text
buffer, the archive entries, and the urls fetched so far. -/
structure LoopState where
  completedEpisodes : Nat
  skippedChapters : List ReportEntry
  incompleteChapters : List ReportEntry
  novelText : List Char
  zipEntries : List (List Char × List Char)
  fetchedUrls : List (List Char)
deriving DecidableEq

/-- The job state before the first iteration; `novelText` starts with the
header the source writes. -/
def initState (title : List Char) : LoopState :=
  { completedEpisodes := 0
    skippedChapters := []
    incompleteChapters := []
    novelText := title ++ "\n\nDownloaded with novel-dl,\nhttps://github.com/yeorinhieut/novel-dl\n\n".data
    zipEntries := []
    fetchedUrls := [] }

/-- Modelled from the spec: the external archive writer's add-named-text-entry
operation (`zip.file(name, content)` of the JSZip collaborator, which the spec
lists only as an interface).  JSZip's `file` adds a new entry or replaces the
existing entry of the same name. -/
def zipFile (entries : List (List Char × List Char)) (name content : List Char) :
    List (List Char × List Char) :=
  if entries.any (fun e => e.1 == name) then
    entries.map (fun e => if e.1 == name then (name, content) else e)
  else entries ++ [(name, content)]

/-- Content stored in the archive under `name`, if any. -/
def zget (entries : List (List Char × List Char)) (name : List Char) :
    Option (List Char) :=
  (entries.find? (fun e => e.1 == name)).map (fun e => e.2)

/-- One loop iteration body (source lines 834–868): fetch the url, then
dispatch the tagged result to exactly one accumulator. -/
def processStep (saveAsZip : Bool) (st : LoopState) (url : List Char)
    (input : FetchInput) : LoopState :=
  let st := { st with fetchedUrls := st.fetchedUrls ++ [url] }
  match fetchNovelContent url input with
  | .success t c =>
    if saveAsZip then
      { st with zipEntries := zipFile st.zipEntries (sanitizeFilename t ++ ".txt".data) c
                completedEpisodes := st.completedEpisodes + 1 }
    else
      { st with novelText := st.novelText ++ "\n\n--- ".data ++ t ++ " ---\n\n".data ++ c
                completedEpisodes := st.completedEpisodes + 1 }
  | .captcha _ =>
    { st with skippedChapters := st.skippedChapters ++ [⟨url, "CAPTCHA (403)".data⟩] }
  | .networkError _ code =>
    { st with incompleteChapters :=
        st.incompleteChapters ++ [⟨url, "Network Error (".data ++ (toString code).data ++ ")".data⟩] }
  | .noContentFound _ =>
    { st with incompleteChapters := st.incompleteChapters ++ [⟨url, "No Content Found".data⟩] }
  | .fetchError _ msg =>
    { st with incompleteChapters := st.incompleteChapters ++ [⟨url, "Fetch Error: ".data ++ msg⟩] }

/-- The sequential download loop: the cancellation flag is read at the top of
each iteration and, when set, the loop stops before fetching the current
item. -/
def runLoop (saveAsZip : Bool) (cf : Nat → Bool) :
    Nat → List (List Char × FetchInput) → LoopState → LoopState
  | _, [], st => st
  | i, item :: rest, st =>
    if cf i then st
    else runLoop saveAsZip cf (i + 1) rest (processStep saveAsZip st item.1 item.2)

/-- Number of items the loop starting at check index `i` over `n` remaining
items actually processes. -/
def processedLen (cf : Nat → Bool) : Nat → Nat → Nat
  | _, 0 => 0
  | i, n + 1 => if cf i then 0 else processedLen cf (i + 1) n + 1

/-- The running total the invariants speak about. -/
def sumOf (st : LoopState) : Nat :=
  st.completedEpisodes + st.skippedChapters.length + st.incompleteChapters.length

/-- Archive key/value produced by one item, if its fetch succeeds. -/
def successKV (item : List Char × FetchInput) : Option (List Char × List Char) :=
  match fetchNovelContent item.1 item.2 with
  | .success t c => some (sanitizeFilename t ++ ".txt".data, c)
  | _ => none

/-- The report file name, `sanitize(title)` plus an optional
`_retry_of_<original>` plus `_report.txt`. -/
def reportFileName (title orig : List Char) : List Char :=
  sanitizeFilename title
  ++ (if 0 < orig.length then "_retry_of_".data ++ sanitizeFilename orig else [])
  ++ "_report.txt".data

/-- Observable outcome of a completed or cancelled job. -/
structure CoreOutput where
  finalState : LoopState
  wasCancelled : Bool
  reportText : Option (List Char)
  reportName : Option (List Char)
deriving DecidableEq

/-- Model of `processDownloadCore`: when archive output is requested and the
archiving library is unavailable (`loadScript` rejected, or `window.JSZip`
stayed undefined through the bounded wait — both reach the same catch), the
function returns before the loop; otherwise the loop runs, and on a
non-cancelled exit the report is generated (and, in archive mode, added to the
archive). -/
def processDownloadCore (title : List Char) (items : List (List Char × FetchInput))
    (saveAsZip zipAvailable : Bool) (cf : Nat → Bool) (orig : List Char) :
    Except Unit CoreOutput :=
  if saveAsZip && !zipAvailable then .error ()
  else
    let final := runLoop saveAsZip cf 0 items (initState title)
    if cf (processedLen cf 0 items.length) then
      .ok ⟨final, true, none, none⟩
    else
      let rpt := buildReportContent final.skippedChapters final.incompleteChapters
      let nm := reportFileName title orig
      .ok ⟨(if saveAsZip then { final with zipEntries := zipFile final.zipEntries nm rpt } else final),
        false, some rpt, some nm⟩

/-!
Progress tracker.  JavaScript numbers are modelled by `JsNum`: a rational
payload plus the special values `Infinity`, `-Infinity` and `NaN`.  All values
the tracker manipulates are exact in this model (integer millisecond counts and
their quotients), so rational arithmetic coincides with the source's float
arithmetic everywhere a claim looks; the special-value propagation rules below
are those of IEEE/ECMAScript.
-/

/-- Structural rational multiplication.  Batteries marks `Rat.mul` (and the
arithmetic behind Mathlib's `*` on `ℚ`) irreducible, which blocks kernel
evaluation, so the model computes directly on numerator and denominator with
`mkRat`; the result is the same rational number. -/
def ratMul (a b : ℚ) : ℚ :=
  mkRat (a.num * b.num) (a.den * b.den)

/-- Structural rational addition. -/
def ratAdd (a b : ℚ) : ℚ :=
  mkRat (a.num * b.den + b.num * a.den) (a.den * b.den)

/-- Structural rational subtraction. -/
def ratSub (a b : ℚ) : ℚ :=
  mkRat (a.num * b.den - b.num * a.den) (a.den * b.den)

/-- Structural rational division (zero divisor gives zero; the callers test
for a zero divisor first). -/
def ratDiv (a b : ℚ) : ℚ :=
  if 0 ≤ b.num then mkRat (a.num * b.den) (a.den * b.num.natAbs)
  else mkRat (-(a.num * b.den)) (a.den * b.num.natAbs)

/-- Floor of a rational as an integer. -/
def ratFloor (q : ℚ) : Int :=
  Int.fdiv q.num q.den

/-- Ceiling of a rational as an integer. -/
def ratCeil (q : ℚ) : Int :=
  -(Int.fdiv (-(q.num)) q.den)

/-- Truncation toward zero (`Math.trunc`, used by the `%` model). -/
def ratTrunc (q : ℚ) : Int :=
  Int.tdiv q.num q.den

/-- The rational with integer value `n`. -/
def intToRat (n : Int) : ℚ :=
  mkRat n 1

/-- A JavaScript number: finite rational, or a special value. -/
inductive JsNum
  | num (q : ℚ)
  | inf
  | neginf
  | nan
deriving DecidableEq

/-- JavaScript division. -/
def jsDiv : JsNum → JsNum → JsNum
  | .nan, _ => .nan
  | _, .nan => .nan
  | .num a, .num b =>
    if b = 0 then (if a = 0 then .nan else if 0 < a then .inf else .neginf)
    else .num (ratDiv a b)
  | .inf, .num b => if b < 0 then .neginf else .inf
  | .neginf, .num b => if b < 0 then .inf else .neginf
  | .num _, .inf => .num 0
  | .num _, .neginf => .num 0
  | .inf, .inf => .nan
  | .inf, .neginf => .nan
  | .neginf, .inf => .nan
  | .neginf, .neginf => .nan

/-- JavaScript multiplication. -/
def jsMul : JsNum → JsNum → JsNum
  | .nan, _ => .nan
  | _, .nan => .nan
  | .num a, .num b => .num (ratMul a b)
  | .inf, .num b => if b = 0 then .nan else if 0 < b then .inf else .neginf
  | .num a, .inf => if a = 0 then .nan else if 0 < a then .inf else .neginf
  | .neginf, .num b => if b = 0 then .nan else if 0 < b then .neginf else .inf
  | .num a, .neginf => if a = 0 then .nan else if 0 < a then .neginf else .inf
  | .inf, .inf => .inf
  | .neginf, .neginf => .inf
  | .inf, .neginf => .neginf
  | .neginf, .inf => .neginf

/-- JavaScript addition. -/
def jsAdd : JsNum → JsNum → JsNum
  | .nan, _ => .nan
  | _, .nan => .nan
  | .num a, .num b => .num (ratAdd a b)
  | .inf, .neginf => .nan
  | .neginf, .inf => .nan
  | .inf, _ => .inf
  | _, .inf => .inf
  | .neginf, _ => .neginf
  | _, .neginf => .neginf

/-- JavaScript `<` (false whenever `NaN` is involved). -/
def jsLtB : JsNum → JsNum → Bool
  | .nan, _ => false
  | _, .nan => false
  | .num a, .num b => Rat.blt a b
  | .neginf, .neginf => false
  | .neginf, _ => true
  | _, .neginf => false
  | .inf, _ => false
  | .num _, .inf => true

/-- JavaScript remainder (sign of the dividend; `NaN` for infinite dividend or
zero divisor). -/
def jsMod : JsNum → JsNum → JsNum
  | .nan, _ => .nan
  | _, .nan => .nan
  | .inf, _ => .nan
  | .neginf, _ => .nan
  | .num a, .num b =>
    if b = 0 then .nan
    else .num (ratSub a (ratMul b (intToRat (ratTrunc (ratDiv a b)))))
  | .num a, .inf => .num a
  | .num a, .neginf => .num a

/-- JavaScript `Math.ceil`. -/
def jsCeil : JsNum → JsNum
  | .num q => .num (intToRat (ratCeil q))
  | .inf => .inf
  | .neginf => .neginf
  | .nan => .nan

/-- JavaScript `Math.floor`. -/
def jsFloor : JsNum → JsNum
  | .num q => .num (intToRat (ratFloor q))
  | .inf => .inf
  | .neginf => .neginf
  | .nan => .nan

/-- Decimal rendering of an integer-valued number inside a template literal.
A non-integral rational is rendered with a slash; the tracker only renders
values that have been floored or ceiled, so that case is unreachable there. -/
def jsNumToString : JsNum → String
  | .nan => "NaN"
  | .inf => "Infinity"
  | .neginf => "-Infinity"
  | .num q => if q.den = 1 then toString q.num else toString q.num ++ "/" ++ toString q.den

/-- JavaScript `Number.prototype.toFixed(1)`: nearest multiple of one tenth,
ties toward the larger value, per the ECMAScript algorithm. -/
def toFixed1 : JsNum → String
  | .nan => "NaN"
  | .inf => "Infinity"
  | .neginf => "-Infinity"
  | .num q =>
    let n : Int := ratFloor (ratAdd (ratMul q 10) (mkRat 1 2))
    let m : Nat := n.natAbs
    (if n < 0 then "-" else "") ++ toString (m / 10) ++ "." ++ toString (m % 10)

/-- JavaScript `Number.prototype.toFixed(2)`. -/
def toFixed2 : JsNum → String
  | .nan => "NaN"
  | .inf => "Infinity"
  | .neginf => "-Infinity"
  | .num q =>
    let n : Int := ratFloor (ratAdd (ratMul q 100) (mkRat 1 2))
    let m : Nat := n.natAbs
    (if n < 0 then "-" else "") ++ toString (m / 100) ++ "."
      ++ (if m % 100 < 10 then "0" else "") ++ toString (m % 100)

/-- Model of the source's `formatTime`: seconds under a minute, minutes and
seconds under an hour, hours and minutes otherwise. -/
def formatTime (ms : JsNum) : String :=
  if jsLtB ms (.num 60000) then
    jsNumToString (jsCeil (jsDiv ms (.num 1000))) ++ "s"
  else if jsLtB ms (.num 3600000) then
    jsNumToString (jsFloor (jsDiv ms (.num 60000))) ++ "m "
      ++ jsNumToString (jsFloor (jsDiv (jsMod ms (.num 60000)) (.num 1000))) ++ "s"
  else
    jsNumToString (jsFloor (jsDiv ms (.num 3600000))) ++ "h "
      ++ jsNumToString (jsFloor (jsDiv (jsMod ms (.num 3600000)) (.num 60000))) ++ "m"

/-- The tracker's private moving-average window (most recent per-item times,
capacity 5). -/
structure TrackerState where
  processingTimes : List JsNum
deriving DecidableEq

/-- The four formatted statistics one `update` call returns. -/
structure TrackerStats where
  progress : String
  remaining : String
  elapsed : String
  speed : String
deriving DecidableEq

/-- Model of the `update` closure of `createProgressTracker totalItems`.
`elapsed` stands for `Date.now() - startTime` at this call, an input because
wall-clock reads are external.  The state threading makes the closure's capture
of `processingTimes` explicit. -/
def trackerUpdate (totalItems : Int) (st : TrackerState) (elapsed completedItems : Int) :
    TrackerStats × TrackerState :=
  let progress := jsMul (jsDiv (.num completedItems) (.num totalItems)) (.num 100)
  let times :=
    if 0 < completedItems then
      let t := st.processingTimes ++ [jsDiv (.num elapsed) (.num completedItems)]
      if 5 < t.length then t.drop 1 else t
    else st.processingTimes
  let avg :=
    if 0 < times.length then jsDiv (times.foldl jsAdd (.num 0)) (.num times.length)
    else .num 0
  let est := jsMul avg (.num ((totalItems - completedItems : Int) : ℚ))
  ({ progress := toFixed1 progress
     remaining := formatTime est
     elapsed := formatTime (.num elapsed)
     speed := if jsLtB (.num 0) avg then toFixed2 (jsDiv (.num 1000) avg) else "0.00" },
   { processingTimes := times })

/-!
Definitions used by the statements below.
-/

/-- Length of the leading newline run. -/
def nlRun (s : List Char) : Nat :=
  countWhile (fun c => c == '\n') s

/-- Whether a character list contains three consecutive newlines anywhere. -/
def hasRun3 : List Char → Bool
  | [] => false
  | c :: cs => (c == '\n' && ("\n\n".data).isPrefixOf cs) || hasRun3 cs

/-- Whether the text following a `URL: ` marker lets the url regex match:
a scheme followed by at least one further non-whitespace character. -/
def goodAfter (b : List Char) : Bool :=
  (("https://".data).isPrefixOf b && !((takeNonWS (b.drop 8)).isEmpty)) ||
  (("http://".data).isPrefixOf b && !((takeNonWS (b.drop 7)).isEmpty))

/-!
Lemmas about the replacement machinery.
-/

theorem replaceMatchesGo_congr (m : List Char → Option Nat) (repl : List Char) :
    ∀ (f1 f2 : Nat) (s : List Char), s.length ≤ f1 → s.length ≤ f2 →
      replaceMatchesGo m repl f1 s = replaceMatchesGo m repl f2 s := by
  intro f1
  induction f1 with
  | zero =>
    intro f2 s h1 h2
    have hs : s = [] := List.length_eq_zero.mp (Nat.le_zero.mp h1)
    subst hs
    cases f2 <;> rfl
  | succ f ih =>
    intro f2 s h1 h2
    match s, h1, h2 with
    | [], _, _ => cases f2 <;> rfl
    | c :: cs, h1, h2 =>
      match f2, h2 with
      | f2 + 1, h2 =>
        simp only [replaceMatchesGo]
        have hlen : cs.length ≤ f := Nat.lt_succ_iff.mp h1
        have hlen2 : cs.length ≤ f2 := Nat.lt_succ_iff.mp h2
        cases h : m (c :: cs) with
        | none => simp [ih f2 cs hlen hlen2]
        | some k =>
          cases k with
          | zero => simp [ih f2 cs hlen hlen2]
          | succ k =>
            have hd : (cs.drop k).length ≤ cs.length := by
              simp [List.length_drop]
            simp [ih f2 (cs.drop k) (Nat.le_trans hd hlen) (Nat.le_trans hd hlen2)]

theorem replaceMatches_nil (m : List Char → Option Nat) (repl : List Char) :
    replaceMatches m repl [] = [] := rfl

theorem replaceMatches_cons_some (m : List Char → Option Nat) (repl : List Char)
    (c : Char) (cs : List Char) (k : Nat) (h : m (c :: cs) = some (k + 1)) :
    replaceMatches m repl (c :: cs) = repl ++ replaceMatches m repl (cs.drop k) := by
  show replaceMatchesGo m repl (c :: cs).length (c :: cs) = _
  simp only [List.length_cons, replaceMatchesGo, h]
  have hd : (cs.drop k).length ≤ cs.length := by simp [List.length_drop]
  rw [replaceMatchesGo_congr m repl cs.length (cs.drop k).length (cs.drop k) hd le_rfl]
  rfl

theorem replaceMatches_cons_none (m : List Char → Option Nat) (repl : List Char)
    (c : Char) (cs : List Char) (h : m (c :: cs) = none) :
    replaceMatches m repl (c :: cs) = c :: replaceMatches m repl cs := by
  show replaceMatchesGo m repl (c :: cs).length (c :: cs) = _
  simp only [List.length_cons, replaceMatchesGo, h]
  rfl

/-!
Lemmas about newline runs, leading to the guarantee that the final
`\n{3,}` collapse of `cleanText` leaves no run of three newlines.
-/

theorem nlRun_nil : nlRun [] = 0 := rfl

theorem nlRun_cons_nl (cs : List Char) : nlRun ('\n' :: cs) = nlRun cs + 1 := by
  simp [nlRun, countWhile, List.takeWhile]

theorem nlRun_cons_ne (c : Char) (cs : List Char) (h : c ≠ '\n') :
    nlRun (c :: cs) = 0 := by
  have hb : (c == '\n') = false := by simp [h]
  simp [nlRun, countWhile, List.takeWhile, hb]

theorem nlRun_le_length (s : List Char) : nlRun s ≤ s.length := by
  induction s with
  | nil => exact Nat.le_refl 0
  | cons c cs ih =>
    by_cases h : c = '\n'
    · subst h
      rw [nlRun_cons_nl]
      simpa using ih
    · rw [nlRun_cons_ne c cs h]
      exact Nat.zero_le _

theorem drop_nlRun (s : List Char) :
    s.drop (nlRun s) = s.dropWhile (fun c => c == '\n') := by
  induction s with
  | nil => rfl
  | cons c cs ih =>
    by_cases h : c = '\n'
    · subst h
      simpa [nlRun_cons_nl, List.dropWhile] using ih
    · have hb : (c == '\n') = false := by simp [h]
      simp [nlRun_cons_ne c cs h, List.dropWhile, hb]

theorem nlRun_dropWhile (s : List Char) :
    nlRun (s.dropWhile (fun c => c == '\n')) = 0 := by
  induction s with
  | nil => rfl
  | cons c cs ih =>
    by_cases h : c = '\n'
    · subst h
      simpa [List.dropWhile] using ih
    · have hb : (c == '\n') = false := by simp [h]
      simp [List.dropWhile, hb, nlRun_cons_ne c cs h]

theorem isPrefixOf_nl_eq_false (s : List Char) (h : nlRun s = 0) :
    (("\n".data).isPrefixOf s) = false := by
  cases s with
  | nil => rfl
  | cons c cs =>
    by_cases hc : c = '\n'
    · subst hc
      simp [nlRun_cons_nl] at h
    · show (('\n' == c) && _) = false
      simp [Ne.symm hc]

theorem isPrefixOf_nl2_eq_false (s : List Char) (h : nlRun s ≤ 1) :
    (("\n\n".data).isPrefixOf s) = false := by
  cases s with
  | nil => rfl
  | cons c cs =>
    by_cases hc : c = '\n'
    · subst hc
      have h1 : nlRun cs = 0 := by
        have := nlRun_cons_nl cs
        omega
      show (('\n' == '\n') && (("\n".data).isPrefixOf cs)) = false
      simp [isPrefixOf_nl_eq_false cs h1]
    · show (('\n' == c) && _) = false
      simp [Ne.symm hc]

theorem hasRun3_cons (c : Char) (cs : List Char) :
    hasRun3 (c :: cs) = ((c == '\n' && ("\n\n".data).isPrefixOf cs) || hasRun3 cs) := rfl

theorem nl3Match_eq (s : List Char) :
    nl3Match s = if 3 ≤ nlRun s then some (nlRun s) else none := rfl

theorem nl3_collapse_aux :
    ∀ (n : Nat) (t : List Char), t.length ≤ n →
      hasRun3 (replaceMatches nl3Match ('\n' :: '\n' :: []) t) = false ∧
      nlRun (replaceMatches nl3Match ('\n' :: '\n' :: []) t) = min (nlRun t) 2 := by
  intro n
  induction n with
  | zero =>
    intro t ht
    have := List.length_eq_zero.mp (Nat.le_zero.mp ht)
    subst this
    exact ⟨rfl, rfl⟩
  | succ n ih =>
    intro t ht
    match t with
    | [] => exact ⟨rfl, rfl⟩
    | c :: cs =>
      by_cases h3 : 3 ≤ nlRun (c :: cs)
      · have hm : nl3Match (c :: cs) = some ((nlRun (c :: cs) - 1) + 1) := by
          rw [nl3Match_eq, if_pos h3]
          congr 1
          omega
        rw [replaceMatches_cons_some nl3Match _ c cs (nlRun (c :: cs) - 1) hm]
        have hdrop : cs.drop (nlRun (c :: cs) - 1) = (c :: cs).drop (nlRun (c :: cs)) := by
          have heq : nlRun (c :: cs) = (nlRun (c :: cs) - 1) + 1 := by omega
          conv_rhs => rw [heq, List.drop_succ_cons]
        rw [hdrop, drop_nlRun]
        set D := (c :: cs).dropWhile (fun c => c == '\n') with hD
        have hD0 : nlRun D = 0 := nlRun_dropWhile (c :: cs)
        have hDlen : D.length ≤ n := by
          have h1 : D.length = (c :: cs).length - nlRun (c :: cs) := by
            rw [hD, ← drop_nlRun, List.length_drop]
          have h2 := nlRun_le_length (c :: cs)
          simp only [List.length_cons] at h1 h2 ht ⊢
          omega
        obtain ⟨ihr3, ihrn⟩ := ih D hDlen
        set R := replaceMatches nl3Match ('\n' :: '\n' :: []) D with hR
        have hRn : nlRun R = 0 := by rw [ihrn, hD0]; rfl
        constructor
        · show hasRun3 ('\n' :: '\n' :: R) = false
          rw [hasRun3_cons, hasRun3_cons]
          have hp1 : (("\n\n".data).isPrefixOf ('\n' :: R)) = false := by
            show (('\n' == '\n') && (("\n".data).isPrefixOf R)) = false
            simp [isPrefixOf_nl_eq_false R hRn]
          have hp2 : (("\n\n".data).isPrefixOf R) = false :=
            isPrefixOf_nl2_eq_false R (by omega)
          simp [hp1, hp2, ihr3]
        · show nlRun ('\n' :: '\n' :: R) = min (nlRun (c :: cs)) 2
          rw [nlRun_cons_nl, nlRun_cons_nl, hRn]
          omega
      · have hm : nl3Match (c :: cs) = none := by
          rw [nl3Match_eq, if_neg h3]
        rw [replaceMatches_cons_none nl3Match _ c cs hm]
        have hlen : cs.length ≤ n := by
          simp only [List.length_cons] at ht
          omega
        obtain ⟨ihr3, ihrn⟩ := ih cs hlen
        set R := replaceMatches nl3Match ('\n' :: '\n' :: []) cs with hR
        by_cases hc : c = '\n'
        · subst hc
          have hcs : nlRun cs ≤ 1 := by
            have := nlRun_cons_nl cs
            omega
          have hRn : nlRun R = nlRun cs := by
            rw [ihrn]
            omega
          constructor
          · rw [hasRun3_cons]
            have hp : (("\n\n".data).isPrefixOf R) = false :=
              isPrefixOf_nl2_eq_false R (by omega)
            simp [hp, ihr3]
          · rw [nlRun_cons_nl, nlRun_cons_nl, hRn]
            omega
        · constructor
          · rw [hasRun3_cons]
            have hb : (c == '\n') = false := by simp [hc]
            simp [hb, ihr3]
          · rw [nlRun_cons_ne c R hc, nlRun_cons_ne c cs hc]
            rfl

theorem cleanText_hasRun3 (s : List Char) : hasRun3 (cleanText s) = false := by
  simp only [cleanText]
  exact (nl3_collapse_aux _ _ le_rfl).1

/-!
Lemmas about line splitting and the url regex, leading to the report
round-trip.
-/

theorem splitLines_cons_nl (rest : List Char) :
    splitLines ('\n' :: rest) = [] :: splitLines rest := by
  simp [splitLines]

theorem splitLines_ne_nil (s : List Char) : splitLines s ≠ [] := by
  induction s with
  | nil => simp [splitLines]
  | cons c cs ih =>
    by_cases h : c = '\n'
    · subst h; simp [splitLines]
    · simp only [splitLines, if_neg h]
      cases hcs : splitLines cs <;> simp

theorem splitLines_no_nl (l : List Char) (h : ∀ c ∈ l, c ≠ '\n') :
    splitLines l = [l] := by
  induction l with
  | nil => rfl
  | cons c cs ih =>
    have hc : c ≠ '\n' := h c (by simp)
    have hcs := ih (fun x hx => h x (by simp [hx]))
    simp [splitLines, if_neg hc, hcs]

theorem splitLines_append (l rest : List Char) (h : ∀ c ∈ l, c ≠ '\n') :
    splitLines (l ++ '\n' :: rest) = l :: splitLines rest := by
  induction l with
  | nil => simp [splitLines]
  | cons c cs ih =>
    have hc : c ≠ '\n' := h c (by simp)
    have hcs := ih (fun x hx => h x (by simp [hx]))
    simp [splitLines, if_neg hc, hcs]

theorem splitLines_joinNl (ls : List (List Char)) (rest : List Char)
    (h0 : ls ≠ []) (h : ∀ l ∈ ls, ∀ c ∈ l, c ≠ '\n') :
    splitLines (joinNl ls ++ '\n' :: rest) = ls ++ splitLines rest := by
  induction ls with
  | nil => exact absurd rfl h0
  | cons l ls ih =>
    cases ls with
    | nil =>
      show splitLines (l ++ '\n' :: rest) = [l] ++ splitLines rest
      rw [splitLines_append l rest (h l (by simp))]
      rfl
    | cons l2 ls2 =>
      show splitLines ((l ++ '\n' :: joinNl (l2 :: ls2)) ++ '\n' :: rest) = _
      conv_lhs => rw [List.append_assoc, List.cons_append]
      rw [splitLines_append l (joinNl (l2 :: ls2) ++ '\n' :: rest) (h l (by simp))]
      rw [ih (by simp) (fun x hx => h x (by simp at hx ⊢; tauto))]
      rfl

theorem takeNonWS_append_ws (u rest : List Char) (h : ∀ c ∈ u, isWS c = false) :
    takeNonWS (u ++ ' ' :: rest) = u := by
  induction u with
  | nil => rfl
  | cons c cs ih =>
    have hc : isWS c = false := h c (by simp)
    simp only [List.cons_append, takeNonWS, hc]
    simp [ih (fun x hx => h x (by simp [hx]))]

theorem mem_takeNonWS (s : List Char) (c : Char) (h : c ∈ takeNonWS s) :
    isWS c = false := by
  induction s with
  | nil => simp [takeNonWS] at h
  | cons a as ih =>
    by_cases ha : isWS a
    · simp [takeNonWS, ha] at h
    · rw [takeNonWS, if_neg (by simp [ha])] at h
      rcases List.mem_cons.mp h with rfl | h2
      · simpa using ha
      · exact ih h2

theorem isPrefixOf_self_append (p x : List Char) : p.isPrefixOf (p ++ x) = true := by
  induction p with
  | nil => simp
  | cons a as ih => simp [List.isPrefixOf, ih]

theorem isPrefixOf_eq_append (p : List Char) :
    ∀ l : List Char, p.isPrefixOf l = true → l = p ++ l.drop p.length := by
  induction p with
  | nil => intro l _; rfl
  | cons a as ih =>
    intro l h
    cases l with
    | nil => simp [List.isPrefixOf] at h
    | cons b bs =>
      simp only [List.isPrefixOf, Bool.and_eq_true, beq_iff_eq] at h
      obtain ⟨rfl, h2⟩ := h
      have := ih bs h2
      simpa using this

theorem takeNonWS_ne_nil (c : Char) (cs : List Char) (h : isWS c = false) :
    takeNonWS (c :: cs) ≠ [] := by
  simp [takeNonWS, h]

theorem tryMatch_http (u rest : List Char) (hu : u ≠ [])
    (hw : ∀ c ∈ u, isWS c = false) :
    tryMatch ("URL: http://".data ++ (u ++ ' ' :: rest)) = some ("http://".data ++ u) := by
  have h1 : (("URL: https://".data).isPrefixOf
      ("URL: http://".data ++ (u ++ ' ' :: rest))) = false := rfl
  have h2 : (("URL: http://".data).isPrefixOf
      ("URL: http://".data ++ (u ++ ' ' :: rest))) = true := isPrefixOf_self_append _ _
  have h3 : ("URL: http://".data ++ (u ++ ' ' :: rest)).drop 12 = u ++ ' ' :: rest := rfl
  have h4 : takeNonWS (u ++ ' ' :: rest) = u := takeNonWS_append_ws u rest hw
  simp only [tryMatch, h1, h2, h3, h4]
  simp [hu]

theorem tryMatch_https (u rest : List Char) (hu : u ≠ [])
    (hw : ∀ c ∈ u, isWS c = false) :
    tryMatch ("URL: https://".data ++ (u ++ ' ' :: rest)) = some ("https://".data ++ u) := by
  have h2 : (("URL: https://".data).isPrefixOf
      ("URL: https://".data ++ (u ++ ' ' :: rest))) = true := isPrefixOf_self_append _ _
  have h3 : ("URL: https://".data ++ (u ++ ' ' :: rest)).drop 13 = u ++ ' ' :: rest := rfl
  have h4 : takeNonWS (u ++ ' ' :: rest) = u := takeNonWS_append_ws u rest hw
  simp only [tryMatch, h2, h3, h4]
  simp [hu]

theorem findURL_eq_some_of_tryMatch (s u : List Char) (h : tryMatch s = some u) :
    findURL s = some u := by
  cases s with
  | nil => simp [tryMatch] at h
  | cons c cs => simp [findURL, h]

theorem goodUrl_elim (url : List Char) (h : goodUrl url = true) :
    (∀ c ∈ url, isWS c = false) ∧
    ((url = "http://".data ++ url.drop 7 ∧ url.drop 7 ≠ []) ∨
      (url = "https://".data ++ url.drop 8 ∧ url.drop 8 ≠ [])) := by
  simp only [goodUrl, Bool.and_eq_true, Bool.or_eq_true, decide_eq_true_eq,
    List.all_eq_true, Bool.not_eq_true'] at h
  obtain ⟨hpre, hall⟩ := h
  refine ⟨hall, ?_⟩
  rcases hpre with ⟨hp, hlen⟩ | ⟨hp, hlen⟩
  · left
    have := isPrefixOf_eq_append ("http://".data) url hp
    refine ⟨this, ?_⟩
    intro hnil
    have : url.length = 7 := by
      conv_lhs => rw [this]
      simp [hnil]
    omega
  · right
    have := isPrefixOf_eq_append ("https://".data) url hp
    refine ⟨this, ?_⟩
    intro hnil
    have : url.length = 8 := by
      conv_lhs => rw [this]
      simp [hnil]
    omega

theorem findURL_reportLine (e : ReportEntry) (h : goodUrl e.url = true) :
    findURL (reportLine e) = some e.url := by
  obtain ⟨hall, hcase⟩ := goodUrl_elim e.url h
  rcases hcase with ⟨hurl, hne⟩ | ⟨hurl, hne⟩
  · set v := e.url.drop 7 with hv
    have hwv : ∀ c ∈ v, isWS c = false := by
      intro c hc
      exact hall c (by rw [hurl]; simp [hc])
    have hshape : reportLine e =
        "URL: http://".data ++ (v ++ ' ' :: ("(Reason: ".data ++ e.reason ++ ")".data)) := by
      rw [reportLine]
      conv_lhs => rw [hurl]
      simp only [List.append_assoc, List.cons_append, List.nil_append]
    rw [hshape]
    have := tryMatch_http v ("(Reason: ".data ++ e.reason ++ ")".data) hne hwv
    rw [findURL_eq_some_of_tryMatch _ _ this, hurl]
  · set v := e.url.drop 8 with hv
    have hwv : ∀ c ∈ v, isWS c = false := by
      intro c hc
      exact hall c (by rw [hurl]; simp [hc])
    have hshape : reportLine e =
        "URL: https://".data ++ (v ++ ' ' :: ("(Reason: ".data ++ e.reason ++ ")".data)) := by
      rw [reportLine]
      conv_lhs => rw [hurl]
      simp only [List.append_assoc, List.cons_append, List.nil_append]
    rw [hshape]
    have := tryMatch_https v ("(Reason: ".data ++ e.reason ++ ")".data) hne hwv
    rw [findURL_eq_some_of_tryMatch _ _ this, hurl]

theorem reportLine_no_nl (e : ReportEntry) (hu : goodUrl e.url = true)
    (hr : ∀ c ∈ e.reason, c ≠ '\n') : ∀ c ∈ reportLine e, c ≠ '\n' := by
  have hall := (goodUrl_elim e.url hu).1
  intro c hc
  rw [reportLine] at hc
  simp only [List.append_assoc, List.mem_append] at hc
  rcases hc with hc | hc | hc | hc | hc
  · revert hc
    revert c
    decide
  · intro hcn
    subst hcn
    have := hall '\n' hc
    simp [isWS] at this
  · revert hc
    revert c
    decide
  · exact hr c hc
  · revert hc
    revert c
    decide

theorem splitLines_sectionText (es : List ReportEntry) (sentinel rest : List Char)
    (hes : ∀ e ∈ es, goodUrl e.url = true ∧ ∀ c ∈ e.reason, c ≠ '\n')
    (hsent : ∀ c ∈ sentinel, c ≠ '\n') :
    splitLines (sectionText es sentinel ++ rest) =
      (if 0 < es.length then es.map reportLine else [sentinel]) ++ splitLines rest := by
  cases es with
  | nil =>
    have hcond : ¬ (0 < ([] : List ReportEntry).length) := by simp
    rw [sectionText, if_neg hcond, if_neg hcond]
    rw [List.append_assoc]
    show splitLines (sentinel ++ '\n' :: rest) = _
    rw [splitLines_append sentinel rest hsent]
    rfl
  | cons e es =>
    have hcond : 0 < (e :: es).length := by simp
    rw [sectionText, if_pos hcond, if_pos hcond]
    rw [List.append_assoc]
    show splitLines (joinNl ((e :: es).map reportLine) ++ '\n' :: rest) = _
    rw [splitLines_joinNl ((e :: es).map reportLine) rest (by simp)
      (by
        intro l hl
        rcases List.mem_map.mp hl with ⟨x, hx, rfl⟩
        exact reportLine_no_nl x (hes x hx).1 (hes x hx).2)]

theorem filterMap_reportLines (es : List ReportEntry)
    (hes : ∀ e ∈ es, goodUrl e.url = true) :
    (es.map reportLine).filterMap findURL = es.map (fun e => e.url) := by
  induction es with
  | nil => rfl
  | cons e es ih =>
    simp only [List.map_cons, List.filterMap_cons,
      findURL_reportLine e (hes e (by simp))]
    rw [ih (fun x hx => hes x (by simp [hx]))]

theorem filterMap_sectionLines (es : List ReportEntry) (sentinel : List Char)
    (hes : ∀ e ∈ es, goodUrl e.url = true) (hnone : findURL sentinel = none) :
    ((if 0 < es.length then es.map reportLine else [sentinel]).filterMap findURL) =
      es.map (fun e => e.url) := by
  cases es with
  | nil => simp [List.filterMap_cons, hnone]
  | cons e es =>
    rw [if_pos (by simp)]
    exact filterMap_reportLines (e :: es) hes

theorem parse_buildReport (skipped incomplete : List ReportEntry)
    (hs : ∀ e ∈ skipped, goodUrl e.url = true ∧ ∀ c ∈ e.reason, c ≠ '\n')
    (hi : ∀ e ∈ incomplete, goodUrl e.url = true ∧ ∀ c ∈ e.reason, c ≠ '\n') :
    parseReportFile (buildReportContent skipped incomplete) =
      skipped.map (fun e => e.url) ++ incomplete.map (fun e => e.url) := by
  rw [parseReportFile, buildReportContent]
  have hshape :
      "--- Skipped Chapters (CAPTCHA / 403) ---\n".data
        ++ sectionText skipped ("No chapters skipped due to CAPTCHA.".data)
        ++ "\n--- Incomplete/Failed Chapters ---\n".data
        ++ sectionText incomplete ("No chapters incomplete or failed.".data)
      = "--- Skipped Chapters (CAPTCHA / 403) ---".data ++ '\n' ::
          (sectionText skipped ("No chapters skipped due to CAPTCHA.".data)
            ++ '\n' :: ("--- Incomplete/Failed Chapters ---".data ++ '\n' ::
              (sectionText incomplete ("No chapters incomplete or failed.".data) ++ []))) := by
    simp only [List.append_assoc, List.append_nil]
    rfl
  rw [hshape]
  rw [splitLines_append _ _ (by decide)]
  rw [splitLines_sectionText skipped _ _ hs (by decide)]
  rw [splitLines_cons_nl]
  rw [splitLines_append _ _ (by decide)]
  rw [splitLines_sectionText incomplete _ _ hi (by decide)]
  have hsplitnil : splitLines [] = [[]] := rfl
  rw [hsplitnil]
  simp only [List.filterMap_cons, List.filterMap_append]
  have hh1 : findURL ("--- Skipped Chapters (CAPTCHA / 403) ---".data) = none := by decide
  have hh2 : findURL ("--- Incomplete/Failed Chapters ---".data) = none := by decide
  have hnil : findURL [] = none := rfl
  rw [hh1, hh2, hnil]
  rw [filterMap_sectionLines skipped _ (fun e he => (hs e he).1) (by decide)]
  rw [filterMap_sectionLines incomplete _ (fun e he => (hi e he).1) (by decide)]
  simp

theorem tryMatch_some_shape (s u : List Char) (h : tryMatch s = some u) :
    (("http://".data).isPrefixOf u = true ∨ ("https://".data).isPrefixOf u = true) ∧
    ∀ c ∈ u, isWS c = false := by
  rw [tryMatch] at h
  by_cases h1 : (("URL: https://".data).isPrefixOf s) = true
  · rw [if_pos h1] at h
    by_cases h2 : takeNonWS (s.drop 13) = []
    · simp [h2] at h
    · rw [if_neg h2] at h
      have hu : u = "https://".data ++ takeNonWS (s.drop 13) := by
        simpa using h.symm
      subst hu
      refine ⟨Or.inr (isPrefixOf_self_append _ _), ?_⟩
      intro c hc
      rcases List.mem_append.mp hc with hc | hc
      · exact (by decide : ∀ x ∈ ("https://".data), isWS x = false) c hc
      · exact mem_takeNonWS _ c hc
  · rw [if_neg h1] at h
    by_cases h1b : (("URL: http://".data).isPrefixOf s) = true
    · rw [if_pos h1b] at h
      by_cases h2 : takeNonWS (s.drop 12) = []
      · simp [h2] at h
      · rw [if_neg h2] at h
        have hu : u = "http://".data ++ takeNonWS (s.drop 12) := by
          simpa using h.symm
        subst hu
        refine ⟨Or.inl (isPrefixOf_self_append _ _), ?_⟩
        intro c hc
        rcases List.mem_append.mp hc with hc | hc
        · exact (by decide : ∀ x ∈ ("http://".data), isWS x = false) c hc
        · exact mem_takeNonWS _ c hc
    · rw [if_neg h1b] at h
      exact absurd h (by simp)

theorem findURL_some_shape (s u : List Char) (h : findURL s = some u) :
    (("http://".data).isPrefixOf u = true ∨ ("https://".data).isPrefixOf u = true) ∧
    ∀ c ∈ u, isWS c = false := by
  induction s with
  | nil => simp [findURL] at h
  | cons c cs ih =>
    rw [findURL] at h
    cases htm : tryMatch (c :: cs) with
    | some v =>
      rw [htm] at h
      have : v = u := by simpa using h
      subst this
      exact tryMatch_some_shape _ _ htm
    | none =>
      rw [htm] at h
      exact ih h

theorem parseReportFile_wellformed (content url : List Char)
    (h : url ∈ parseReportFile content) :
    (("http://".data).isPrefixOf url = true ∨ ("https://".data).isPrefixOf url = true) ∧
    ∀ c ∈ url, isWS c = false := by
  rw [parseReportFile] at h
  rcases List.mem_filterMap.mp h with ⟨line, _, hline⟩
  exact findURL_some_shape line url hline

theorem tryMatch_decomp (s u : List Char) (h : tryMatch s = some u) :
    ∃ b, s = "URL: ".data ++ b ∧ goodAfter b = true := by
  rw [tryMatch] at h
  by_cases h1 : (("URL: https://".data).isPrefixOf s) = true
  · refine ⟨"https://".data ++ s.drop 13, ?_, ?_⟩
    · have := isPrefixOf_eq_append ("URL: https://".data) s h1
      rw [this]
      rfl
    · rw [goodAfter]
      have hpre : (("https://".data).isPrefixOf ("https://".data ++ s.drop 13)) = true :=
        isPrefixOf_self_append _ _
      have hdrop : ("https://".data ++ s.drop 13).drop 8 = s.drop 13 := rfl
      rw [if_pos h1] at h
      by_cases h2 : takeNonWS (s.drop 13) = []
      · simp [h2] at h
      · simp [hpre, hdrop, List.isEmpty_iff, h2]
  · rw [if_neg h1] at h
    by_cases h1b : (("URL: http://".data).isPrefixOf s) = true
    · refine ⟨"http://".data ++ s.drop 12, ?_, ?_⟩
      · have := isPrefixOf_eq_append ("URL: http://".data) s h1b
        rw [this]
        rfl
      · rw [goodAfter]
        have hpre : (("http://".data).isPrefixOf ("http://".data ++ s.drop 12)) = true :=
          isPrefixOf_self_append _ _
        have hdrop : ("http://".data ++ s.drop 12).drop 7 = s.drop 12 := rfl
        rw [if_pos h1b] at h
        by_cases h2 : takeNonWS (s.drop 12) = []
        · simp [h2] at h
        · have hpre2 : (("https://".data).isPrefixOf ("http://".data ++ s.drop 12)) = false := rfl
          simp [hpre, hpre2, hdrop, List.isEmpty_iff, h2]
    · rw [if_neg h1b] at h
      exact absurd h (by simp)

theorem findURL_none_of_no_marker (line : List Char)
    (h : ∀ a b, line = a ++ "URL: ".data ++ b → goodAfter b = false) :
    findURL line = none := by
  induction line with
  | nil => rfl
  | cons c cs ih =>
    rw [findURL]
    cases htm : tryMatch (c :: cs) with
    | some v =>
      rcases tryMatch_decomp _ _ htm with ⟨b, hb, hgood⟩
      have := h [] b (by simpa using hb)
      rw [this] at hgood
      cases hgood
    | none =>
      exact ih (fun a b hab => h (c :: a) b (by simp [hab]))

/-- C7: `cleanText "<p>Hello</p><br/><img src=x>"` is exactly `"Hello"`, a
blank line, then `"[Image Skipped]"`, with no markup left; and for every
input, the output of `cleanText` never contains three consecutive newlines
(the final `\n{3,}` collapse guarantees it). -/
theorem c7_cleanText_properties :
    cleanText ("<p>Hello</p><br/><img src=x>".data) = "Hello\n\n[Image Skipped]".data ∧
    ∀ s : List Char, hasRun3 (cleanText s) = false :=
  ⟨by decide, cleanText_hasRun3⟩

/-- C1 counterexample: for the report built from a skipped entry whose url
`"x"` does not start with a scheme, parsing returns the empty list rather than
the skipped-then-incomplete url sequence `["x"]`, so the claim fails as stated
for arbitrary `(url, reason)` pairs. -/
theorem c1_counterexample :
    parseReportFile (buildReportContent [⟨"x".data, "r".data⟩] []) = [] ∧
    ([⟨"x".data, "r".data⟩] : List ReportEntry).map (fun e => e.url) ++
      ([] : List ReportEntry).map (fun e => e.url) = ["x".data] ∧
    ([] : List (List Char)) ≠ ["x".data] :=
  ⟨by decide, by decide, by decide⟩

/-- C1 (amended): for every report whose urls start with `http://` or
`https://`, continue with at least one character, and contain no whitespace,
and whose reasons contain no newline, parsing the serialized report returns
exactly the skipped urls followed by the incomplete urls, in order, duplicates
preserved. -/
theorem c1_report_roundtrip (skipped incomplete : List ReportEntry)
    (hs : ∀ e ∈ skipped, goodUrl e.url = true ∧ ∀ c ∈ e.reason, c ≠ '\n')
    (hi : ∀ e ∈ incomplete, goodUrl e.url = true ∧ ∀ c ∈ e.reason, c ≠ '\n') :
    parseReportFile (buildReportContent skipped incomplete) =
      skipped.map (fun e => e.url) ++ incomplete.map (fun e => e.url) :=
  parse_buildReport skipped incomplete hs hi

/-- Witness for the amended C1 at a concrete two-entry report. -/
theorem c1_report_roundtrip_witness :
    parseReportFile (buildReportContent
        [⟨"https://a.example/1".data, "CAPTCHA (403)".data⟩]
        [⟨"http://b.example/2".data, "Network Error (500)".data⟩]) =
      ["https://a.example/1".data, "http://b.example/2".data] :=
  (c1_report_roundtrip
    [⟨"https://a.example/1".data, "CAPTCHA (403)".data⟩]
    [⟨"http://b.example/2".data, "Network Error (500)".data⟩]
    (by decide) (by decide)).trans (by decide)

/-- C9 counterexample: a line whose first `URL: ` marker is followed by
`ftp://…` still contributes a url, because the regex simply matches farther
right on the same line; the claim's per-line condition fails as stated. -/
theorem c9_counterexample :
    parseReportFile ("URL: ftp://a URL: https://b".data) = ["https://b".data] := by
  decide

/-- C9 (amended): every url returned by `parseReportFile` begins with
`http://` or `https://` and contains no whitespace; and a line in which no
occurrence of `URL: ` is immediately followed by a scheme and a further
non-whitespace character contributes no url. -/
theorem c9_parse_urls :
    (∀ content url, url ∈ parseReportFile content →
      (("http://".data).isPrefixOf url = true ∨ ("https://".data).isPrefixOf url = true) ∧
      ∀ c ∈ url, isWS c = false) ∧
    (∀ line, (∀ a b, line = a ++ "URL: ".data ++ b → goodAfter b = false) →
      findURL line = none) :=
  ⟨parseReportFile_wellformed, findURL_none_of_no_marker⟩

/-- Witness for the amended C9: a parsed url from a concrete report is
scheme-prefixed and whitespace-free, and the empty line contributes nothing. -/
theorem c9_parse_urls_witness :
    ((("http://".data).isPrefixOf ("http://x".data) = true ∨
      ("https://".data).isPrefixOf ("http://x".data) = true) ∧
      ∀ c ∈ "http://x".data, isWS c = false) ∧
    findURL [] = none :=
  ⟨c9_parse_urls.1 ("URL: http://x".data) ("http://x".data) (by decide),
   c9_parse_urls.2 [] (fun a b hab => absurd hab.symm (by simp))⟩

/-!
Lemmas about the download loop.
-/

theorem sumOf_processStep (z : Bool) (st : LoopState) (url : List Char)
    (inp : FetchInput) : sumOf (processStep z st url inp) = sumOf st + 1 := by
  rcases h : fetchNovelContent url inp with ⟨t, c⟩ | ⟨u⟩ | ⟨u, code⟩ | ⟨u⟩ | ⟨u, msg⟩ <;>
    cases z <;>
      simp [processStep, h, sumOf, List.length_append] <;> omega

theorem processStep_cases (z : Bool) (st : LoopState) (url : List Char)
    (inp : FetchInput) :
    ((processStep z st url inp).completedEpisodes = st.completedEpisodes + 1 ∧
     (processStep z st url inp).skippedChapters = st.skippedChapters ∧
     (processStep z st url inp).incompleteChapters = st.incompleteChapters) ∨
    ((processStep z st url inp).completedEpisodes = st.completedEpisodes ∧
     (processStep z st url inp).skippedChapters.length = st.skippedChapters.length + 1 ∧
     (processStep z st url inp).incompleteChapters = st.incompleteChapters) ∨
    ((processStep z st url inp).completedEpisodes = st.completedEpisodes ∧
     (processStep z st url inp).skippedChapters = st.skippedChapters ∧
     (processStep z st url inp).incompleteChapters.length = st.incompleteChapters.length + 1) := by
  rcases h : fetchNovelContent url inp with ⟨t, c⟩ | ⟨u⟩ | ⟨u, code⟩ | ⟨u⟩ | ⟨u, msg⟩ <;> cases z
  · exact Or.inl (by simp [processStep, h])
  · exact Or.inl (by simp [processStep, h])
  · exact Or.inr (Or.inl (by simp [processStep, h]))
  · exact Or.inr (Or.inl (by simp [processStep, h]))
  · exact Or.inr (Or.inr (by simp [processStep, h]))
  · exact Or.inr (Or.inr (by simp [processStep, h]))
  · exact Or.inr (Or.inr (by simp [processStep, h]))
  · exact Or.inr (Or.inr (by simp [processStep, h]))
  · exact Or.inr (Or.inr (by simp [processStep, h]))
  · exact Or.inr (Or.inr (by simp [processStep, h]))

theorem processStep_fetchedUrls (z : Bool) (st : LoopState) (url : List Char)
    (inp : FetchInput) :
    (processStep z st url inp).fetchedUrls = st.fetchedUrls ++ [url] := by
  rcases h : fetchNovelContent url inp with ⟨t, c⟩ | ⟨u⟩ | ⟨u, code⟩ | ⟨u⟩ | ⟨u, msg⟩ <;>
    cases z <;> simp [processStep, h]

theorem runLoop_noCancel_eq_foldl (z : Bool) :
    ∀ (items : List (List Char × FetchInput)) (i : Nat) (st : LoopState),
      runLoop z (fun _ => false) i items st =
        items.foldl (fun st it => processStep z st it.1 it.2) st := by
  intro items
  induction items with
  | nil => intro i st; rfl
  | cons it rest ih =>
    intro i st
    rw [runLoop, if_neg (by simp)]
    rw [ih (i + 1) (processStep z st it.1 it.2)]
    rfl

theorem runLoop_eq_take (z : Bool) (cf : Nat → Bool) :
    ∀ (items : List (List Char × FetchInput)) (i : Nat) (st : LoopState),
      runLoop z cf i items st =
        runLoop z (fun _ => false) i
          (items.take (processedLen cf i items.length)) st := by
  intro items
  induction items with
  | nil => intro i st; rfl
  | cons it rest ih =>
    intro i st
    show runLoop z cf i (it :: rest) st =
      runLoop z (fun _ => false) i
        ((it :: rest).take (processedLen cf i (rest.length + 1))) st
    rw [processedLen]
    cases hcf : cf i with
    | true =>
      rw [runLoop, if_pos hcf]
      simp [hcf, runLoop]
    | false =>
      rw [runLoop, if_neg (by simp [hcf])]
      rw [if_neg (by simp [hcf])]
      rw [List.take_succ_cons]
      rw [runLoop, if_neg (by simp)]
      exact ih (i + 1) (processStep z st it.1 it.2)

theorem sumOf_foldl (z : Bool) :
    ∀ (items : List (List Char × FetchInput)) (st : LoopState),
      sumOf (items.foldl (fun st it => processStep z st it.1 it.2) st) =
        sumOf st + items.length := by
  intro items
  induction items with
  | nil => intro st; rfl
  | cons it rest ih =>
    intro st
    rw [List.foldl_cons, ih, sumOf_processStep]
    simp [Nat.add_assoc, Nat.add_comm 1 rest.length]

theorem fetchedUrls_foldl (z : Bool) :
    ∀ (items : List (List Char × FetchInput)) (st : LoopState),
      (items.foldl (fun st it => processStep z st it.1 it.2) st).fetchedUrls =
        st.fetchedUrls ++ items.map Prod.fst := by
  intro items
  induction items with
  | nil => intro st; simp
  | cons it rest ih =>
    intro st
    rw [List.foldl_cons, ih, processStep_fetchedUrls]
    simp

theorem processedLen_le (cf : Nat → Bool) :
    ∀ (n i : Nat), processedLen cf i n ≤ n := by
  intro n
  induction n with
  | zero => intro i; exact Nat.le_refl 0
  | succ n ih =>
    intro i
    rw [processedLen]
    cases cf i with
    | true => simp
    | false =>
      simp only [Bool.false_eq_true, if_false]
      exact Nat.succ_le_succ (ih (i + 1))

theorem processedLen_spec (cf : Nat → Bool) :
    ∀ (n i m : Nat), m ≤ n → (∀ j, j < m → cf (i + j) = false) →
      (m = n ∨ cf (i + m) = true) → processedLen cf i n = m := by
  intro n
  induction n with
  | zero =>
    intro i m hm _ _
    have hm0 : m = 0 := by omega
    subst hm0
    rfl
  | succ n ih =>
    intro i m hm hfalse hstop
    cases m with
    | zero =>
      rcases hstop with h | h
      · omega
      · rw [processedLen]
        simp only [Nat.add_zero] at h
        rw [h]
        simp
    | succ m =>
      have h0 : cf i = false := by
        have := hfalse 0 (by omega)
        simpa using this
      rw [processedLen, if_neg (by simp [h0])]
      congr 1
      refine ih (i + 1) m (by omega) ?_ ?_
      · intro j hj
        have := hfalse (j + 1) (by omega)
        rw [show i + 1 + j = i + (j + 1) by omega]
        exact this
      · rcases hstop with h | h
        · left; omega
        · right
          rw [show i + 1 + m = i + (m + 1) by omega]
          exact h

theorem sumOf_runLoop (z : Bool) (cf : Nat → Bool) (title : List Char)
    (items : List (List Char × FetchInput)) :
    sumOf (runLoop z cf 0 items (initState title)) =
      processedLen cf 0 items.length := by
  rw [runLoop_eq_take, runLoop_noCancel_eq_foldl, sumOf_foldl]
  have h1 : sumOf (initState title) = 0 := rfl
  rw [h1, List.length_take]
  have := processedLen_le cf items.length 0
  omega

/-- C2: in each loop iteration exactly one of the completed counter, the
skipped list and the incomplete list grows by one; consequently the running
total never exceeds the number of item urls, and equals it at loop exit when
the cancellation flag was never raised. -/
theorem c2_loop_invariant (z : Bool) (cf : Nat → Bool) (title : List Char)
    (items : List (List Char × FetchInput)) :
    (∀ st url inp,
      sumOf (processStep z st url inp) = sumOf st + 1 ∧
      (((processStep z st url inp).completedEpisodes = st.completedEpisodes + 1 ∧
        (processStep z st url inp).skippedChapters = st.skippedChapters ∧
        (processStep z st url inp).incompleteChapters = st.incompleteChapters) ∨
       ((processStep z st url inp).completedEpisodes = st.completedEpisodes ∧
        (processStep z st url inp).skippedChapters.length = st.skippedChapters.length + 1 ∧
        (processStep z st url inp).incompleteChapters = st.incompleteChapters) ∨
       ((processStep z st url inp).completedEpisodes = st.completedEpisodes ∧
        (processStep z st url inp).skippedChapters = st.skippedChapters ∧
        (processStep z st url inp).incompleteChapters.length = st.incompleteChapters.length + 1))) ∧
    sumOf (runLoop z cf 0 items (initState title)) ≤ items.length ∧
    ((∀ i, i < items.length → cf i = false) →
      sumOf (runLoop z cf 0 items (initState title)) = items.length) := by
  refine ⟨fun st url inp => ⟨sumOf_processStep z st url inp, processStep_cases z st url inp⟩, ?_, ?_⟩
  · rw [sumOf_runLoop]
    exact processedLen_le cf items.length 0
  · intro hall
    rw [sumOf_runLoop]
    refine processedLen_spec cf items.length 0 items.length (Nat.le_refl _) ?_ (Or.inl rfl)
    intro j hj
    simpa using hall j hj

/-- Witness for C2 at a concrete three-item job with no cancellation. -/
theorem c2_loop_invariant_witness :
    sumOf (runLoop false (fun _ => false) 0
      [("https://a".data, FetchInput.resp 200 (Except.error "boom".data)),
       ("https://b".data, FetchInput.resp 403 (Except.error [])),
       ("https://c".data, FetchInput.resp 500 (Except.error []))] (initState [])) =
      ([("https://a".data, FetchInput.resp 200 (Except.error "boom".data)),
        ("https://b".data, FetchInput.resp 403 (Except.error [])),
        ("https://c".data, FetchInput.resp 500 (Except.error []))] :
          List (List Char × FetchInput)).length :=
  (c2_loop_invariant false (fun _ => false) []
    [("https://a".data, FetchInput.resp 200 (Except.error "boom".data)),
     ("https://b".data, FetchInput.resp 403 (Except.error [])),
     ("https://c".data, FetchInput.resp 500 (Except.error []))]).2.2
    (fun _ _ => rfl)

/-- C4: when the cancellation flag is raised once `k` items are handled (all
checks before `k` saw it down, the check after item `k` sees it up), the loop
stops at the next flag check: the final running total is `k` or `k + 1`, the
final state is exactly the state of an uncancelled run over that prefix of the
items (everything already fetched is kept), and precisely those prefix urls
were fetched. -/
theorem c4_cancellation (z : Bool) (cf : Nat → Bool) (title : List Char)
    (items : List (List Char × FetchInput)) (k : Nat)
    (hk : k ≤ items.length)
    (h1 : ∀ j, j < k → cf j = false)
    (h2 : cf (k + 1) = true) :
    (sumOf (runLoop z cf 0 items (initState title)) = k ∨
     sumOf (runLoop z cf 0 items (initState title)) = k + 1) ∧
    runLoop z cf 0 items (initState title) =
      runLoop z (fun _ => false) 0
        (items.take (sumOf (runLoop z cf 0 items (initState title)))) (initState title) ∧
    (runLoop z cf 0 items (initState title)).fetchedUrls =
      (items.take (sumOf (runLoop z cf 0 items (initState title)))).map Prod.fst := by
  have hsum := sumOf_runLoop z cf title items
  have hp : processedLen cf 0 items.length = k ∨
      processedLen cf 0 items.length = k + 1 := by
    by_cases hkn : k = items.length
    · left
      exact processedLen_spec cf items.length 0 k hk
        (fun j hj => by simpa using h1 j hj) (Or.inl hkn)
    · cases hck : cf k with
      | true =>
        left
        exact processedLen_spec cf items.length 0 k hk
          (fun j hj => by simpa using h1 j hj) (Or.inr (by simpa using hck))
      | false =>
        right
        refine processedLen_spec cf items.length 0 (k + 1) (by omega) ?_ ?_
        · intro j hj
          rcases Nat.lt_or_ge j k with hjk | hjk
          · simpa using h1 j hjk
          · have : j = k := by omega
            subst this
            simpa using hck
        · by_cases hkn1 : k + 1 = items.length
          · exact Or.inl hkn1
          · exact Or.inr (by simpa using h2)
  refine ⟨by rw [hsum]; exact hp, ?_, ?_⟩
  · rw [hsum]
    exact runLoop_eq_take z cf items 0 (initState title)
  · rw [hsum, runLoop_eq_take z cf items 0 (initState title),
      runLoop_noCancel_eq_foldl, fetchedUrls_foldl]
    rfl

/-- Witness for C4: three items, the flag first observed up at check 2. -/
theorem c4_cancellation_witness :
    sumOf (runLoop false (fun i => decide (2 ≤ i)) 0
      [("https://a".data, FetchInput.resp 403 (Except.error [])),
       ("https://b".data, FetchInput.resp 403 (Except.error [])),
       ("https://c".data, FetchInput.resp 403 (Except.error []))] (initState [])) = 1 ∨
    sumOf (runLoop false (fun i => decide (2 ≤ i)) 0
      [("https://a".data, FetchInput.resp 403 (Except.error [])),
       ("https://b".data, FetchInput.resp 403 (Except.error [])),
       ("https://c".data, FetchInput.resp 403 (Except.error []))] (initState [])) = 2 :=
  (c4_cancellation false (fun i => decide (2 ≤ i)) []
    [("https://a".data, FetchInput.resp 403 (Except.error [])),
     ("https://b".data, FetchInput.resp 403 (Except.error [])),
     ("https://c".data, FetchInput.resp 403 (Except.error []))] 1
    (by decide) (by decide) (by decide)).1

/-!
Lemmas about the archive model, leading to the entry-name clobbering claim.
-/

theorem find?_map_replace (name content m : List Char) (hm : m ≠ name) :
    ∀ entries : List (List Char × List Char),
      ((entries.map (fun e => if e.1 == name then (name, content) else e)).find?
        (fun e => e.1 == m)) = entries.find? (fun e => e.1 == m) := by
  intro entries
  induction entries with
  | nil => rfl
  | cons e es ih =>
    cases he : e.1 == name with
    | true =>
      have he1 : e.1 = name := by simpa using he
      rw [List.map_cons, if_pos he]
      rw [List.find?_cons_of_neg _ (by simp [Ne.symm hm])]
      rw [List.find?_cons_of_neg _ (by simp [he1, Ne.symm hm])]
      exact ih
    | false =>
      rw [List.map_cons, if_neg (by simp [he])]
      cases hem : e.1 == m with
      | true =>
        rw [@List.find?_cons_of_pos _ (fun x => x.1 == m) e _ hem,
          @List.find?_cons_of_pos _ (fun x => x.1 == m) e _ hem]
      | false =>
        rw [@List.find?_cons_of_neg _ (fun x => x.1 == m) e _ (by simp [hem]),
          @List.find?_cons_of_neg _ (fun x => x.1 == m) e _ (by simp [hem])]
        exact ih

theorem find?_map_replace_hit (name content : List Char) :
    ∀ entries : List (List Char × List Char),
      entries.any (fun e => e.1 == name) = true →
      ((entries.map (fun e => if e.1 == name then (name, content) else e)).find?
        (fun e => e.1 == name)) = some (name, content) := by
  intro entries
  induction entries with
  | nil => intro h; simp at h
  | cons e es ih =>
    intro h
    cases he : e.1 == name with
    | true =>
      rw [List.map_cons, if_pos he]
      rw [List.find?_cons_of_pos _ (by simp)]
    | false =>
      rw [List.map_cons, if_neg (by simp [he])]
      rw [List.find?_cons_of_neg _ (by simp [he])]
      refine ih ?_
      rw [List.any_cons, he] at h
      simpa using h

theorem zget_append_new (name content m : List Char) :
    ∀ entries : List (List Char × List Char),
      entries.any (fun e => e.1 == name) = false →
      zget (entries ++ [(name, content)]) m =
        if m = name then some content else zget entries m := by
  intro entries
  induction entries with
  | nil =>
    intro _
    by_cases hm : m = name
    · subst hm
      simp [zget]
    · have hne : ((name, content).1 == m) = false := by simp [Ne.symm hm]
      rw [List.nil_append, if_neg hm]
      show zget [(name, content)] m = zget [] m
      rw [zget, List.find?_cons_of_neg _ (by simp [Ne.symm hm])]
      rfl
  | cons e es ih =>
    intro hany
    have hany2 : es.any (fun e => e.1 == name) = false := by
      rw [List.any_cons] at hany
      simpa using (Bool.or_eq_false_iff.mp hany).2
    have hename : (e.1 == name) = false := by
      rw [List.any_cons] at hany
      simpa using (Bool.or_eq_false_iff.mp hany).1
    rw [List.cons_append]
    cases hem : e.1 == m with
    | true =>
      have hmn : m ≠ name := by
        intro hmn
        subst hmn
        rw [hem] at hename
        cases hename
      rw [if_neg hmn]
      simp only [zget]
      rw [@List.find?_cons_of_pos _ (fun x => x.1 == m) e _ hem,
        @List.find?_cons_of_pos _ (fun x => x.1 == m) e _ hem]
    | false =>
      simp only [zget]
      rw [@List.find?_cons_of_neg _ (fun x => x.1 == m) e _ (by simp [hem]),
        @List.find?_cons_of_neg _ (fun x => x.1 == m) e _ (by simp [hem])]
      have hih := ih hany2
      simp only [zget] at hih
      exact hih

theorem zget_zipFile (entries : List (List Char × List Char))
    (name content m : List Char) :
    zget (zipFile entries name content) m =
      if m = name then some content else zget entries m := by
  rw [zipFile]
  cases hex : entries.any (fun e => e.1 == name) with
  | true =>
    rw [if_pos rfl]
    by_cases hm : m = name
    · subst hm
      rw [if_pos rfl, zget, find?_map_replace_hit m content entries hex]
      rfl
    · rw [if_neg hm, zget, find?_map_replace name content m hm entries]
      rfl
  | false =>
    rw [if_neg (by simp)]
    exact zget_append_new name content m entries hex

theorem zipFile_names (entries : List (List Char × List Char))
    (name content : List Char) :
    (zipFile entries name content).map Prod.fst =
      if entries.any (fun e => e.1 == name) = true then entries.map Prod.fst
      else entries.map Prod.fst ++ [name] := by
  rw [zipFile]
  cases hex : entries.any (fun e => e.1 == name) with
  | true =>
    rw [if_pos rfl, if_pos rfl]
    rw [List.map_map]
    refine List.map_congr_left ?_
    intro e _
    cases he : e.1 == name with
    | true =>
      have he1 : e.1 = name := by simpa using he
      simp [Function.comp, he, he1]
    | false => simp [Function.comp, he]
  | false =>
    rw [if_neg (by simp), if_neg (by simp)]
    simp

theorem zipFile_nodup (entries : List (List Char × List Char))
    (name content : List Char)
    (h : (entries.map Prod.fst).Nodup) :
    ((zipFile entries name content).map Prod.fst).Nodup := by
  rw [zipFile_names]
  cases hex : entries.any (fun e => e.1 == name) with
  | true =>
    rw [if_pos rfl]
    exact h
  | false =>
    rw [if_neg (by simp)]
    rw [List.nodup_append]
    refine ⟨h, List.nodup_singleton name, ?_⟩
    intro x hx hb
    have hb2 : x = name := by simpa using hb
    subst hb2
    rcases List.mem_map.mp hx with ⟨e, he, hfst⟩
    have hno := List.any_eq_false.mp hex e he
    simp [hfst] at hno

theorem filter_length_le_one_of_nodup (nm : List Char) :
    ∀ entries : List (List Char × List Char),
      (entries.map Prod.fst).Nodup →
      (entries.filter (fun e => e.1 == nm)).length ≤ 1 := by
  intro entries
  induction entries with
  | nil => intro _; simp
  | cons e es ih =>
    intro h
    rw [List.map_cons, List.nodup_cons] at h
    obtain ⟨hnotin, hnd⟩ := h
    cases he : e.1 == nm with
    | true =>
      have he1 : e.1 = nm := by simpa using he
      have hes : es.filter (fun e => e.1 == nm) = [] := by
        rw [List.filter_eq_nil_iff]
        intro x hx hxnm
        have hx1 : x.1 = nm := by simpa using hxnm
        exact hnotin (List.mem_map.mpr ⟨x, hx, by rw [hx1, he1]⟩)
      rw [List.filter_cons, if_pos (by simp [he]), hes]
      simp
    | false =>
      rw [List.filter_cons, if_neg (by simp [he])]
      exact ih hnd

theorem processStep_zip_some (st : LoopState) (url : List Char) (inp : FetchInput)
    (kv : List Char × List Char) (h : successKV (url, inp) = some kv) :
    (processStep true st url inp).zipEntries = zipFile st.zipEntries kv.1 kv.2 := by
  simp only [successKV] at h
  rcases hf : fetchNovelContent url inp with ⟨t, c⟩ | ⟨u⟩ | ⟨u, code⟩ | ⟨u⟩ | ⟨u, msg⟩ <;>
    simp only [hf] at h
  · have hkv : kv = (sanitizeFilename t ++ ".txt".data, c) := by simpa using h.symm
    subst hkv
    simp [processStep, hf]
  all_goals cases h

theorem processStep_zip_none (st : LoopState) (url : List Char) (inp : FetchInput)
    (h : successKV (url, inp) = none) :
    (processStep true st url inp).zipEntries = st.zipEntries := by
  simp only [successKV] at h
  rcases hf : fetchNovelContent url inp with ⟨t, c⟩ | ⟨u⟩ | ⟨u, code⟩ | ⟨u⟩ | ⟨u, msg⟩ <;>
    simp only [hf] at h
  · cases h
  all_goals simp [processStep, hf]

theorem zipEntries_foldl :
    ∀ (items : List (List Char × FetchInput)) (st : LoopState),
      (items.foldl (fun st it => processStep true st it.1 it.2) st).zipEntries =
        (items.filterMap successKV).foldl
          (fun acc kv => zipFile acc kv.1 kv.2) st.zipEntries := by
  intro items
  induction items with
  | nil => intro st; rfl
  | cons it rest ih =>
    intro st
    rw [List.foldl_cons, ih, List.filterMap_cons]
    cases hkv : successKV it with
    | some kv =>
      simp only [hkv]
      rw [processStep_zip_some st it.1 it.2 kv
        (by rw [show ((it.1, it.2) : List Char × FetchInput) = it from rfl]; exact hkv)]
      rw [List.foldl_cons]
    | none =>
      simp only [hkv]
      rw [processStep_zip_none st it.1 it.2
        (by rw [show ((it.1, it.2) : List Char × FetchInput) = it from rfl]; exact hkv)]

theorem buildZip_nodup :
    ∀ (l : List (List Char × List Char)) (acc : List (List Char × List Char)),
      (acc.map Prod.fst).Nodup →
      ((l.foldl (fun acc kv => zipFile acc kv.1 kv.2) acc).map Prod.fst).Nodup := by
  intro l
  induction l with
  | nil => intro acc hacc; exact hacc
  | cons kv rest ih =>
    intro acc hacc
    rw [List.foldl_cons]
    exact ih (zipFile acc kv.1 kv.2) (zipFile_nodup acc kv.1 kv.2 hacc)

theorem getLast?_cons_some (a x : List Char × List Char)
    (l : List (List Char × List Char)) (h : l.getLast? = some x) :
    (a :: l).getLast? = some x := by
  cases l with
  | nil => cases h
  | cons b t => rw [List.getLast?_cons_cons]; exact h

theorem buildZip_zget (nm : List Char) :
    ∀ (l : List (List Char × List Char)) (acc : List (List Char × List Char)),
      zget (l.foldl (fun acc kv => zipFile acc kv.1 kv.2) acc) nm =
        (match (l.filter (fun kv => kv.1 == nm)).getLast? with
          | some kv => some kv.2
          | none => zget acc nm) := by
  intro l
  induction l with
  | nil => intro acc; rfl
  | cons kv rest ih =>
    intro acc
    rw [List.foldl_cons, ih (zipFile acc kv.1 kv.2)]
    cases hkv : kv.1 == nm with
    | true =>
      have hnm : nm = kv.1 := by
        have := (beq_iff_eq.mp hkv)
        exact this.symm
      rw [List.filter_cons, if_pos (by simp [hkv])]
      cases hlast : (rest.filter (fun kv => kv.1 == nm)).getLast? with
      | some kv2 =>
        rw [getLast?_cons_some kv kv2 _ hlast]
      | none =>
        have hnil : rest.filter (fun kv => kv.1 == nm) = [] :=
          List.getLast?_eq_none_iff.mp hlast
        rw [hnil, List.getLast?_singleton]
        rw [zget_zipFile acc kv.1 kv.2 nm, if_pos hnm]
    | false =>
      have hnm : nm ≠ kv.1 := by
        intro hnm
        subst hnm
        simp at hkv
      rw [List.filter_cons, if_neg (by simp [hkv])]
      cases hlast : (rest.filter (fun kv => kv.1 == nm)).getLast? with
      | some kv2 => rfl
      | none =>
        rw [zget_zipFile acc kv.1 kv.2 nm, if_neg hnm]

/-- C10: in archive mode every successful chapter is stored under
`sanitizeFilename(title) ++ ".txt"`, the archive never holds two entries with
the same name, and the content found under a name is that of the last
success whose sanitized title produced it (later downloads overwrite
earlier ones). -/
theorem c10_zip_entry_clobber (cf : Nat → Bool) (title : List Char)
    (items : List (List Char × FetchInput)) (nm : List Char) :
    zget (runLoop true cf 0 items (initState title)).zipEntries nm =
      (((items.take (processedLen cf 0 items.length)).filterMap successKV).filter
        (fun kv => kv.1 == nm)).getLast?.map Prod.snd ∧
    ((runLoop true cf 0 items (initState title)).zipEntries.filter
      (fun e => e.1 == nm)).length ≤ 1 := by
  rw [runLoop_eq_take, runLoop_noCancel_eq_foldl, zipEntries_foldl]
  have hinit : (initState title).zipEntries = [] := rfl
  rw [hinit]
  constructor
  · rw [buildZip_zget]
    cases hlast : (((items.take (processedLen cf 0 items.length)).filterMap
        successKV).filter (fun kv => kv.1 == nm)).getLast? with
    | some kv => rfl
    | none => rfl
  · exact filter_length_le_one_of_nodup nm _ (buildZip_nodup _ [] (by simp))

/-!
Fetch classification, title resolution, setup failure, and the degenerate
progress tracker.
-/

theorem firstMatch_none (doc : Doc) :
    ∀ sels : List (List Char), (∀ sel ∈ sels, querySelector doc sel = none) →
      firstMatch doc sels = none := by
  intro sels
  induction sels with
  | nil => intro _; rfl
  | cons s rest ih =>
    intro h
    rw [firstMatch]
    rw [h s (by simp)]
    exact ih (fun sel hsel => h sel (by simp [hsel]))

theorem firstMatch_of_first (doc : Doc) :
    ∀ (sels : List (List Char)) (i : Nat) (hi : i < sels.length) (e : Element),
      (∀ j (hj : j < i), querySelector doc (sels.get ⟨j, Nat.lt_trans hj hi⟩) = none) →
      querySelector doc (sels.get ⟨i, hi⟩) = some e →
      firstMatch doc sels = some e := by
  intro sels
  induction sels with
  | nil =>
    intro i hi
    exact absurd hi (by simp)
  | cons s rest ih =>
    intro i hi e hnone hsome
    cases i with
    | zero =>
      have hs : querySelector doc s = some e := hsome
      rw [firstMatch, hs]
    | succ j =>
      have h0 : querySelector doc s = none := hnone 0 (by omega)
      rw [firstMatch, h0]
      have hj : j < rest.length := by
        simpa using Nat.lt_of_succ_lt_succ hi
      refine ih j hj e ?_ ?_
      · intro j2 hj2
        exact hnone (j2 + 1) (by omega)
      · exact hsome

/-- C3: `fetchNovelContent` classifies every outcome into exactly one of the
five tagged results: a thrown transport error becomes `fetchError` with the
message verbatim; status 403 becomes `captcha` before the body is read; any
other non-2xx status becomes `networkError` carrying that code; a 2xx response
whose body read throws becomes `fetchError`; a 2xx document matching no
content selector becomes `noContentFound`; and a 2xx document with a content
match becomes `success` with the extracted title and content.  Being a closed
sum, no failure result carries a content string. -/
theorem c3_fetch_classification :
    (∀ url msg, fetchNovelContent url (.fetchExn msg) = .fetchError url msg) ∧
    (∀ url body, fetchNovelContent url (.resp 403 body) = .captcha url) ∧
    (∀ url s body, s ≠ 403 → ¬(200 ≤ s ∧ s ≤ 299) →
      fetchNovelContent url (.resp s body) = .networkError url s) ∧
    (∀ url s msg, 200 ≤ s → s ≤ 299 →
      fetchNovelContent url (.resp s (.error msg)) = .fetchError url msg) ∧
    (∀ url s doc, 200 ≤ s → s ≤ 299 → firstMatch doc contentSelectors = none →
      fetchNovelContent url (.resp s (.ok doc)) = .noContentFound url) ∧
    (∀ url s doc e, 200 ≤ s → s ≤ 299 → firstMatch doc contentSelectors = some e →
      ∃ t c, fetchNovelContent url (.resp s (.ok doc)) = .success t c) := by
  refine ⟨fun url msg => rfl, fun url body => ?_, ?_, ?_, ?_, ?_⟩
  · simp [fetchNovelContent]
  · intro url s body h1 h2
    simp [fetchNovelContent, h1, h2]
  · intro url s msg h1 h2
    have h403 : ¬(s = 403) := by omega
    have hok : 200 ≤ s ∧ s ≤ 299 := ⟨h1, h2⟩
    simp [fetchNovelContent, h403, hok]
  · intro url s doc h1 h2 hfm
    have h403 : ¬(s = 403) := by omega
    have hok : 200 ≤ s ∧ s ≤ 299 := ⟨h1, h2⟩
    simp [fetchNovelContent, h403, hok, hfm]
  · intro url s doc e h1 h2 hfm
    have h403 : ¬(s = 403) := by omega
    have hok : 200 ≤ s ∧ s ≤ 299 := ⟨h1, h2⟩
    refine ⟨episodeTitleOf doc,
      (if (episodeTitleOf doc).isPrefixOf (cleanText e.innerHTML) then
        trimChars ((cleanText e.innerHTML).drop (episodeTitleOf doc).length)
      else cleanText e.innerHTML), ?_⟩
    simp [fetchNovelContent, h403, hok, hfm]

/-- Witness for C3 at concrete statuses, bodies and documents. -/
theorem c3_fetch_classification_witness :
    fetchNovelContent ("https://u".data) (.resp 500 (Except.error [])) =
      .networkError ("https://u".data) 500 ∧
    fetchNovelContent ("https://u".data) (.resp 200 (.error "boom".data)) =
      .fetchError ("https://u".data) ("boom".data) ∧
    fetchNovelContent ("https://u".data) (.resp 200 (.ok [])) =
      .noContentFound ("https://u".data) ∧
    (∃ t c, fetchNovelContent ("https://u".data)
      (.resp 200 (.ok [("#novel_content".data, ⟨none, [], "hi".data⟩)])) =
        .success t c) :=
  ⟨c3_fetch_classification.2.2.1 ("https://u".data) 500 (Except.error [])
      (by decide) (by decide),
   c3_fetch_classification.2.2.2.1 ("https://u".data) 200 ("boom".data)
      (by decide) (by decide),
   c3_fetch_classification.2.2.2.2.1 ("https://u".data) 200 [] (by decide)
      (by decide) (by decide),
   c3_fetch_classification.2.2.2.2.2 ("https://u".data) 200
      [("#novel_content".data, ⟨none, [], "hi".data⟩)] ⟨none, [], "hi".data⟩
      (by decide) (by decide) (by decide)⟩

/-- C6 counterexample: with no selector matching, the code returns
`"Untitled Episode"`, not the claimed placeholder `"Untitled"`; and for a
matched element exposing an empty `title` attribute and a text content with an
embedded newline, the code returns the whole trimmed text — neither the
attribute (which the claim says is preferred whenever exposed) nor the text cut
at the first line break. -/
theorem c6_counterexample :
    episodeTitleOf [] = "Untitled Episode".data ∧
    episodeTitleOf [] ≠ "Untitled".data ∧
    resolveEpisodeTitle (some ⟨some [], "Hello\nWorld".data, []⟩) =
      "Hello\nWorld".data :=
  ⟨by decide, by decide, by decide⟩

/-- C6 (amended): title resolution tries the ordered selector candidates and
the first structural match wins; a non-empty `title` attribute on the match is
used; otherwise the element's text content up to the first occurrence of the
literal substring `<br>`, trimmed, is taken; and when no selector matches, or
neither attribute nor text yields a non-empty string, the fixed placeholder
`"Untitled Episode"` is returned. -/
theorem c6_title_resolution (doc : Doc) :
    ((∀ sel ∈ titleSelectors, querySelector doc sel = none) →
      episodeTitleOf doc = "Untitled Episode".data) ∧
    (∀ (i : Nat) (hi : i < titleSelectors.length) (e : Element),
      (∀ j (hj : j < i),
        querySelector doc (titleSelectors.get ⟨j, Nat.lt_trans hj hi⟩) = none) →
      querySelector doc (titleSelectors.get ⟨i, hi⟩) = some e →
      episodeTitleOf doc =
        (if (match e.titleAttr with | some s => s | none => []) ≠ [] then
          (match e.titleAttr with | some s => s | none => [])
        else if trimChars (takeUntilSub ("<br>".data) e.textContent) ≠ [] then
          trimChars (takeUntilSub ("<br>".data) e.textContent)
        else "Untitled Episode".data)) := by
  constructor
  · intro h
    rw [episodeTitleOf, firstMatch_none doc titleSelectors h]
    rfl
  · intro i hi e hnone hsome
    rw [episodeTitleOf, firstMatch_of_first doc titleSelectors i hi e hnone hsome]
    rfl

/-- Witness for the amended C6: the second selector is the first to match, and
its element's title attribute wins. -/
theorem c6_title_resolution_witness :
    episodeTitleOf [(".view-title".data, ⟨some ("T".data), [], []⟩)] = "T".data :=
  ((c6_title_resolution [(".view-title".data, ⟨some ("T".data), [], []⟩)]).2
    1 (by decide) ⟨some ("T".data), [], []⟩ (by decide) (by decide)).trans (by decide)

/-- C8: when archive output is requested and the archiving library is
unavailable (its script failed to load, or `window.JSZip` stayed undefined
through the bounded wait), `processDownloadCore` returns the distinct setup
failure before running the loop: no url is fetched and no completed, skipped
or incomplete entry exists, whatever the items, flags and report name. -/
theorem c8_setup_failure (title : List Char) (items : List (List Char × FetchInput))
    (cf : Nat → Bool) (orig : List Char) :
    processDownloadCore title items true false cf orig = Except.error () := rfl

/-- C5 counterexample: with `totalItems = 0` the percentage is the string
`"NaN"` (from `0 / 0`) for a zero completed count and `"Infinity"` for a
positive one — never the claimed `100%`. -/
theorem c5_counterexample :
    (trackerUpdate 0 ⟨[]⟩ 0 0).1.progress = "NaN" ∧
    (trackerUpdate 0 ⟨[]⟩ 0 0).1.progress ≠ "100.0" ∧
    (trackerUpdate 0 ⟨[]⟩ 1000 1).1.progress = "Infinity" :=
  ⟨by decide, by decide, by decide⟩

/-- C5 (amended): a tracker constructed with `totalItems = 0` reports the
percentage `"NaN"` on every update call with `completedItems = 0` (with a
zero remaining-time estimate when no samples are recorded), and `"Infinity"`
on every update call with `completedItems > 0` — never `100%`. -/
theorem c5_zero_total (st : TrackerState) (elapsed completed : Int) :
    (completed = 0 →
      (trackerUpdate 0 st elapsed completed).1.progress = "NaN" ∧
      (st.processingTimes = [] →
        (trackerUpdate 0 st elapsed completed).1.remaining = "0s")) ∧
    (0 < completed →
      (trackerUpdate 0 st elapsed completed).1.progress = "Infinity") := by
  constructor
  · rintro rfl
    constructor
    · show toFixed1 (jsMul (jsDiv (JsNum.num ((0 : Int) : ℚ))
        (JsNum.num ((0 : Int) : ℚ))) (JsNum.num 100)) = "NaN"
      decide
    · intro hpt
      rcases st with ⟨pts⟩
      simp only at hpt
      subst hpt
      rfl
  · intro hc
    show toFixed1 (jsMul (jsDiv (JsNum.num ((completed : Int) : ℚ))
      (JsNum.num ((0 : Int) : ℚ))) (JsNum.num 100)) = "Infinity"
    have hne : ((completed : Int) : ℚ) ≠ 0 := by
      exact_mod_cast (by omega : completed ≠ 0)
    have hpos : (0 : ℚ) < ((completed : Int) : ℚ) := by
      exact_mod_cast hc
    have h1 : jsDiv (JsNum.num ((completed : Int) : ℚ))
        (JsNum.num ((0 : Int) : ℚ)) = JsNum.inf := by
      simp [jsDiv, hne, hpos]
    rw [h1]
    decide

/-- Witness for the amended C5 at concrete update calls. -/
theorem c5_zero_total_witness :
    (trackerUpdate 0 ⟨[]⟩ 5 0).1.progress = "NaN" ∧
    (trackerUpdate 0 ⟨[]⟩ 5 0).1.remaining = "0s" ∧
    (trackerUpdate 0 ⟨[]⟩ 5 2).1.progress = "Infinity" :=
  ⟨((c5_zero_total ⟨[]⟩ 5 0).1 rfl).1,
   ((c5_zero_total ⟨[]⟩ 5 0).1 rfl).2 rfl,
   (c5_zero_total ⟨[]⟩ 5 2).2 (by decide)⟩
